import Mathlib

/-!
Verification development for the YouTube notes and quiz generator.

The Python sources under `src/utils/` are shallowly embedded below:
pure functions become Lean functions, the external text-generation
service is an explicit oracle argument, Python exceptions become
`Option`/sum results, Python `random` calls take an explicit
`rng : Nat → Nat` argument, and the flat-file cache becomes an explicit
association-list store.  Rational numbers stand in for Python floats in
the percentage arithmetic.
-/

/-! ## String helpers shared by `llm.py` and `quiz.py`

Python string operations are embedded as structurally recursive
functions on the character list of the string: `pySplit` is Python
`s.split(sep)` for a non-empty separator (leftmost, non-overlapping
matches), `pyStrip` is Python `str.strip()`, and `pat in s` is
substring containment, equivalently `s.split(pat)` having more than one
piece. -/

/-- Does `sep` occur at the head of `l`? -/
def hasLead : List Char → List Char → Bool
  | [], _ => true
  | _ :: _, [] => false
  | c :: cs, d :: ds => c == d && hasLead cs ds

/-- Worker for `pySplit`: scan left to right, cutting at each leftmost
non-overlapping occurrence of `sep`.  The fuel argument is one more
than the number of characters left, which bounds the recursion. -/
def splitGo (sep : List Char) : Nat → List Char → List Char → List (List Char)
  | 0, _, acc => [acc.reverse]
  | _ + 1, [], acc => [acc.reverse]
  | fuel + 1, c :: cs, acc =>
    if hasLead sep (c :: cs) then
      acc.reverse :: splitGo sep fuel ((c :: cs).drop sep.length) []
    else
      splitGo sep fuel cs (c :: acc)

/-- Embedding of Python `s.split(sep)` for the non-empty separators the
code uses. -/
def pySplit (s sep : String) : List String :=
  (splitGo sep.data (s.data.length + 1) s.data []).map String.mk

/-- Embedding of the Python substring test `pat in s`. -/
def pyContains (s pat : String) : Bool :=
  (pySplit s pat).length > 1

/-- Embedding of Python `str.strip()`: drop whitespace from both
ends. -/
def pyStrip (s : String) : String :=
  String.mk (((s.data.dropWhile Char.isWhitespace).reverse.dropWhile
    Char.isWhitespace).reverse)

/-- Embedding of the code-fence cleanup shared by `generate_notes`
(`llm.py` lines 136-139) and `_generate_questions_by_difficulty`
(`quiz.py` lines 174-177):
if three backticks plus `json` occur, take what follows them up to the
next fence and strip whitespace; otherwise if a bare fence occurs do the
same; otherwise return the content unchanged. -/
def stripFences (content : String) : String :=
  if pyContains content "```json" then
    pyStrip ((pySplit ((pySplit content "```json").getD 1 "") "```").getD 0 "")
  else if pyContains content "```" then
    pyStrip ((pySplit ((pySplit content "```").getD 1 "") "```").getD 0 "")
  else content

/-! ## JSON values

A small JSON value type: the image of Python `json.loads` on success.
`json.loads` itself (a character-level parser) is not reimplemented;
callers that parse receive the parser as an explicit argument
`parse : String → Option Json`, `none` modelling `json.JSONDecodeError`. -/

/-- JSON values, the possible results of a successful `json.loads`. -/
inductive Json where
  | null : Json
  | bool (b : Bool) : Json
  | num (n : Int) : Json
  | str (s : String) : Json
  | arr (l : List Json) : Json
  | obj (kvs : List (String × Json)) : Json

/-- Embedding of Python `k in j` for a parsed JSON value `j`:
key membership for objects, element equality for arrays (a string is
equal only to a string), substring for strings; `none` models the
`TypeError` raised on non-container values. -/
def pyIn (k : String) : Json → Option Bool
  | Json.obj kvs => some (kvs.any (fun p => p.1 == k))
  | Json.arr l =>
      some (l.any (fun j => match j with | Json.str s => s == k | _ => false))
  | Json.str s => some (pyContains s k)
  | _ => none

/-- The four required notes fields checked by `generate_notes`
(`llm.py` line 145). -/
def required_keys : List String :=
  ["summary", "key_concepts", "topics", "detailed_notes"]

/-- Embedding of `all(key in notes_data for key in required_keys)`
(`llm.py` line 146), including the short-circuit of Python `all`:
once a key is missing, later membership tests are not evaluated.
`none` models a `TypeError` escaping the generator. -/
def allRequired (j : Json) : Option Bool :=
  required_keys.foldl
    (fun acc k =>
      match acc with
      | none => none
      | some false => some false
      | some true => pyIn k j)
    (some true)

/-! ## `llm.py`: `generate_notes` -/

/-- Token counts reported by the service (`response.usage`). -/
structure Usage where
  prompt_tokens : Nat
  completion_tokens : Nat
  total_tokens : Nat
deriving Repr, DecidableEq

/-- The result dictionary of `generate_notes`.  Keys absent from a given
return branch of the Python code are `none`. -/
structure NotesResult where
  success : Bool
  notes : Option Json
  token_usage : Option Usage
  error : Option String
  raw_response : Option String

/-- Embedding of `generate_notes` (`llm.py` lines 64-170).
`oracle` is the outcome of `call_llm_with_retry` for the notes prompt:
`none` models an exception from the call (caught by the outer
`except Exception`), `some (content, usage)` a response and its usage
counters.  `parse` stands for `json.loads`.  Error strings carry the
fixed prefix of the corresponding Python message; the interpolated
exception text is elided. -/
def generate_notes (parse : String → Option Json)
    (oracle : Option (String × Usage)) (transcript : String) : NotesResult :=
  if transcript.length < 100 then
    { success := false, notes := none, token_usage := none,
      error := some "Transcript is too short to generate meaningful notes.",
      raw_response := none }
  else
    match oracle with
    | none =>
        { success := false, notes := none, token_usage := none,
          error := some "Error generating notes: ", raw_response := none }
    | some (rawContent, usage) =>
        let content := stripFences rawContent
        match parse content with
        | none =>
            { success := false, notes := none, token_usage := none,
              error := some "Failed to parse LLM response as JSON: ",
              raw_response := some content }
        | some notes_data =>
            match allRequired notes_data with
            | none =>
                { success := false, notes := none, token_usage := none,
                  error := some "Error generating notes: ", raw_response := none }
            | some true =>
                { success := true, notes := some notes_data,
                  token_usage := some usage, error := none, raw_response := none }
            | some false =>
                { success := false, notes := none, token_usage := none,
                  error := some "Error generating notes: LLM response missing required fields",
                  raw_response := none }

/-! ## The retry loop `call_llm_with_retry`

`llm.py` lines 21-61 and `quiz.py` lines 17-54 contain the same control
flow (they differ only in default temperature/token arguments and log
strings).  The external `completion` call is an oracle indexed by the
number of calls made so far; its outcome is the error classification
the code performs on the exception text. -/

/-- Classified outcome of one `completion` call. -/
inductive CallOutcome where
  | success : CallOutcome
  | errTransient : CallOutcome
  | errNotFound : CallOutcome
  | errOther : CallOutcome
deriving Repr, DecidableEq

/-- The model fallback chain (`MODEL_CHAIN`). -/
def MODEL_CHAIN : List String :=
  ["gemini/gemini-2.5-flash-lite", "gemini/gemini-2.0-flash"]

/-- How the per-model attempt loop ended. -/
inductive ModelOutcome where
  | returned (callIdx : Nat) : ModelOutcome
  | raisedOther (callIdx : Nat) : ModelOutcome
  | advance : ModelOutcome
deriving Repr, DecidableEq

/-- State threaded through the loops: number of `completion` calls made
so far, and the sleep durations (in seconds) performed, in order. -/
structure LoopState where
  callIdx : Nat
  sleeps : List Nat
deriving Repr, DecidableEq

/-- Embedding of the inner `for attempt in range(max_retries)` loop for
one model.  `remaining` is the number of iterations left, so the current
`attempt` is `maxRetries - remaining`.  Transient errors back off
`2^attempt * 2` seconds and retry, breaking to the next model after the
final attempt; not-found errors break immediately; other errors sleep a
fixed 2 seconds and retry, re-raising on the final attempt. -/
def runModel (oracle : Nat → CallOutcome) (maxRetries : Nat) :
    Nat → LoopState → ModelOutcome × LoopState
  | 0, st => (ModelOutcome.advance, st)
  | remaining + 1, st =>
    let attempt := maxRetries - (remaining + 1)
    match oracle st.callIdx with
    | CallOutcome.success =>
        (ModelOutcome.returned st.callIdx,
         { callIdx := st.callIdx + 1, sleeps := st.sleeps })
    | CallOutcome.errTransient =>
        if attempt < maxRetries - 1 then
          runModel oracle maxRetries remaining
            { callIdx := st.callIdx + 1,
              sleeps := st.sleeps ++ [2 ^ attempt * 2] }
        else
          (ModelOutcome.advance,
           { callIdx := st.callIdx + 1, sleeps := st.sleeps })
    | CallOutcome.errNotFound =>
        (ModelOutcome.advance,
         { callIdx := st.callIdx + 1, sleeps := st.sleeps })
    | CallOutcome.errOther =>
        if attempt == maxRetries - 1 then
          (ModelOutcome.raisedOther st.callIdx,
           { callIdx := st.callIdx + 1, sleeps := st.sleeps })
        else
          runModel oracle maxRetries remaining
            { callIdx := st.callIdx + 1, sleeps := st.sleeps ++ [2] }

/-- Result of the whole retry function. -/
inductive RetryResult where
  | ok (callIdx : Nat) : RetryResult
  | raisedOther (callIdx : Nat) : RetryResult
  | allModelsFailed : RetryResult
deriving Repr, DecidableEq

/-- Embedding of the outer `for model in MODEL_CHAIN` loop. -/
def runChain (oracle : Nat → CallOutcome) (maxRetries : Nat) :
    List String → LoopState → RetryResult × LoopState
  | [], st => (RetryResult.allModelsFailed, st)
  | _ :: rest, st =>
    match runModel oracle maxRetries maxRetries st with
    | (ModelOutcome.returned k, st') => (RetryResult.ok k, st')
    | (ModelOutcome.raisedOther k, st') => (RetryResult.raisedOther k, st')
    | (ModelOutcome.advance, st') => runChain oracle maxRetries rest st'

/-- Embedding of `call_llm_with_retry`: runs the model chain from a
fresh state and reports the result, total number of `completion` calls,
and the ordered sleep durations. -/
def call_llm_with_retry (oracle : Nat → CallOutcome) (maxRetries : Nat) :
    RetryResult × Nat × List Nat :=
  let (r, st) := runChain oracle maxRetries MODEL_CHAIN
    { callIdx := 0, sleeps := [] }
  (r, st.callIdx, st.sleeps)

/-! ## `quiz.py`: questions, sampling, grading, aggregation -/

/-- A parsed question dictionary, as produced by the tier generation
prompt (`quiz.py` lines 142-152).  `correct_answer` is an arbitrary
integer and `options` an arbitrary list: the parse performs no shape
check, so invalid values are representable. -/
structure Question where
  question : String
  options : List String
  correct_answer : Int
  explanation : String
  topic : String
  difficulty : String
deriving Repr, DecidableEq

/-- The Question invariant from the data model: exactly four options and
a correct index inside them. -/
def questionInvariant (q : Question) : Prop :=
  q.options.length = 4 ∧ 0 ≤ q.correct_answer ∧
    q.correct_answer < (q.options.length : Int)

instance (q : Question) : Decidable (questionInvariant q) := by
  unfold questionInvariant; infer_instance

/-- Remove the element at index `i`, returning it and the remainder;
`none` when `i` is out of range. -/
def extractAt {α : Type} : List α → Nat → Option (α × List α)
  | [], _ => none
  | x :: xs, 0 => some (x, xs)
  | x :: xs, Nat.succ n =>
    match extractAt xs n with
    | none => none
    | some (y, ys) => some (y, x :: ys)

/-- Model of `random.sample(pop, k)`: `k` draws without replacement, the
position of each draw decided by `rng` applied to a step counter.  Every
possible k-permutation is realised by some `rng`; which one the Python
Mersenne twister picks is irrelevant to the claims. -/
def sampleAux {α : Type} (rng : Nat → Nat) : Nat → Nat → List α → List α
  | _, 0, _ => []
  | step, Nat.succ k, pop =>
    match extractAt pop (rng step % pop.length) with
    | none => []
    | some (x, rest) => x :: sampleAux rng (step + 1) k rest

/-- `random.sample(pop, k)` with the rng made explicit. -/
def randomSample {α : Type} (rng : Nat → Nat) (pop : List α) (k : Nat) : List α :=
  sampleAux rng 0 k pop

/-- `random.shuffle(l)`: a full-length draw without replacement. -/
def pyShuffle {α : Type} (rng : Nat → Nat) (l : List α) : List α :=
  randomSample rng l l.length

/-- The default difficulty split of `generate_questions`
(`quiz.py` lines 75-80), in the dictionary insertion order the code
iterates over. -/
def defaultDifficultyMix (num_questions : Nat) : List (String × Nat) :=
  [("easy", num_questions / 3),
   ("medium", num_questions / 3),
   ("hard", num_questions - 2 * (num_questions / 3))]

/-- Embedding of `_generate_questions_by_difficulty`
(`quiz.py` lines 110-190).  The prompt built from the notes is pure
string formatting consumed only by the service, so it is elided; the
oracle maps (difficulty, count) to the list of question dictionaries
obtained after the LLM call, fence cleanup, `json.loads`, and the
wrapping of a single object into a one-element list — or `none` when
any of those steps raises, in which case the `except` branch returns
the empty list.  No further check is applied to the parsed questions. -/
def generate_questions_by_difficulty
    (oracle : String → Nat → Option (List Question))
    (difficulty : String) (count : Nat) : List Question :=
  match oracle difficulty count with
  | none => []
  | some qs => qs

/-- The result dictionary of `generate_questions`.  The `error` key
exists only on the failure branch, which is unreachable in this
embedding because the body never raises once per-tier exceptions are
caught inside `generate_questions_by_difficulty`. -/
structure GenResult where
  success : Bool
  questions : List Question
  total_generated : Nat
  error : Option String
deriving Repr, DecidableEq

/-- Embedding of `generate_questions` (`quiz.py` lines 57-107):
build the difficulty mix (default split when none is given), collect
each positive-count tier in iteration order, shuffle the concatenation,
and report success with the pool size. -/
def generate_questions (rng : Nat → Nat)
    (oracle : String → Nat → Option (List Question))
    (num_questions : Nat)
    (difficulty_mix : Option (List (String × Nat))) : GenResult :=
  let mix := difficulty_mix.getD (defaultDifficultyMix num_questions)
  let all_questions := mix.foldl
    (fun acc dc =>
      if dc.2 > 0 then
        acc ++ generate_questions_by_difficulty oracle dc.1 dc.2
      else acc) []
  { success := true,
    questions := pyShuffle rng all_questions,
    total_generated := all_questions.length,
    error := none }

/-- The `available` universe computed by `select_quiz_questions`
(`quiz.py` lines 205-210).  `topics` is the optional topic filter;
Python truthiness makes both `None` and the empty list fall through to
the whole pool. -/
def pythonAvailable (all_questions : List Question)
    (topics : Option (List String)) : List Question :=
  match topics with
  | none => all_questions
  | some ts =>
    if ts.isEmpty then all_questions
    else
      let filtered := all_questions.filter (fun q => ts.contains q.topic)
      if filtered.isEmpty then all_questions else filtered

/-- Embedding of `select_quiz_questions` (`quiz.py` lines 193-214).
The sample size is `min count (available.length)`, so the
`random.sample` precondition `k ≤ n` always holds and the call never
raises. -/
def select_quiz_questions (rng : Nat → Nat) (all_questions : List Question)
    (count : Nat) (topics : Option (List String)) : List Question :=
  let available := pythonAvailable all_questions topics
  randomSample rng available (min count available.length)

/-- Modelled from the spec wording of the Session Sampler (paragraph
4.4): the sampling universe is the topic-matching subset when the
filter is non-empty and at least one pool question matches it, and the
whole pool otherwise.  Stated separately from the code-derived
definition so the two can be compared. -/
def claimUniverse (pool : List Question) (topics : Option (List String)) :
    List Question :=
  match topics with
  | none => pool
  | some ts =>
    if ts ≠ [] ∧ pool.any (fun q => ts.contains q.topic) then
      pool.filter (fun q => ts.contains q.topic)
    else pool

/-- Python list indexing `l[i]` with its negative-index convention;
`none` models `IndexError`. -/
def pyGet {α : Type} (l : List α) (i : Int) : Option α :=
  if 0 ≤ i then
    if i < (l.length : Int) then l.get? i.toNat else none
  else
    if -(l.length : Int) ≤ i then l.get? (i + l.length).toNat else none

/-- The verdict dictionary returned by `check_answer`. -/
structure Verdict where
  correct : Bool
  correct_answer : Int
  correct_option : String
  user_option : Option String
  explanation : String
deriving Repr, DecidableEq

/-- Embedding of `check_answer` (`quiz.py` lines 217-240).  The lookup
`options[correct_answer]` can raise, which the code does not guard, so
the overall result is an `Option`; the `user_option` lookup is guarded
by an explicit range check and never raises. -/
def check_answer (q : Question) (user_answer : Int) : Option Verdict :=
  match pyGet q.options q.correct_answer with
  | none => none
  | some copt =>
    some { correct := user_answer == q.correct_answer,
           correct_answer := q.correct_answer,
           correct_option := copt,
           user_option :=
             if 0 ≤ user_answer ∧ user_answer < (q.options.length : Int) then
               pyGet q.options user_answer
             else none,
           explanation := q.explanation }

/-! ## `quiz.py`: topic performance aggregation -/

/-- One element of the `quiz_results` list fed to
`calculate_topic_performance`: the code reads only
the topic of the answered question and the correctness flag. -/
structure QuizResult where
  question : Question
  user_answer : Int
  is_correct : Bool
deriving Repr, DecidableEq

/-- One increment of a `(correct, total)` counter pair:
`total += 1`, and `correct += 1` when the answer was right. -/
def bump (c : Nat × Nat) (isCorrect : Bool) : Nat × Nat :=
  (if isCorrect then c.1 + 1 else c.1, c.2 + 1)

/-- Embedding of the loop body of `calculate_topic_performance`
(`quiz.py` lines 255-263): insert a fresh `(0, 0)` entry at the end of
the topic map when the topic is new (Python dicts preserve insertion
order), then increment the counters of that topic. -/
def addResult (stats : List (String × Nat × Nat)) (topic : String)
    (isCorrect : Bool) : List (String × Nat × Nat) :=
  let stats' :=
    if stats.any (fun p => p.1 == topic) then stats
    else stats ++ [(topic, 0, 0)]
  stats'.map (fun p => if p.1 == topic then (p.1, bump p.2 isCorrect) else p)

/-- The counting pass of `calculate_topic_performance`. -/
def tally (results : List QuizResult) : List (String × Nat × Nat) :=
  results.foldl (fun s r => addResult s r.question.topic r.is_correct) []

/-- A topic statistics record (`quiz.py` lines 266-268), percentages as
rationals. -/
structure TopicStat where
  correct : Nat
  total : Nat
  percentage : Rat
  status : String
deriving Repr, DecidableEq

/-- The chained conditional assigning a status label
(`quiz.py` line 268). -/
def statusOf (p : Rat) : String :=
  if p ≥ 80 then "Strong" else if p ≥ 60 then "Needs Review" else "Weak"

/-- The percentage-and-status pass over a counter pair
(`quiz.py` lines 266-268). -/
def mkStat (c : Nat × Nat) : TopicStat :=
  let pct : Rat := if c.2 > 0 then (c.1 : Rat) / (c.2 : Rat) * 100 else 0
  { correct := c.1, total := c.2, percentage := pct, status := statusOf pct }

/-- Embedding of `calculate_topic_performance` (`quiz.py` lines
243-270): count per topic in first-appearance order, then annotate each
entry with its percentage and status. -/
def calculate_topic_performance (quiz_results : List QuizResult) :
    List (String × TopicStat) :=
  (tally quiz_results).map (fun p => (p.1, mkStat p.2))

/-- One entry of the weak-topic report (`quiz.py` lines 288-293). -/
structure WeakTopic where
  topic : String
  score : String
  percentage : Rat
  status : String
deriving Repr, DecidableEq

/-- The dictionary built for one weak topic, including the
`f"{correct}/{total}"` score string. -/
def mkWeakTopic (p : String × TopicStat) : WeakTopic :=
  { topic := p.1,
    score := toString p.2.correct ++ "/" ++ toString p.2.total,
    percentage := p.2.percentage,
    status := p.2.status }

/-- The pre-sort weak list of `get_weak_topics` (`quiz.py` lines
284-293): the below-threshold entries in topic-map iteration order. -/
def weakEntries (tp : List (String × TopicStat)) (threshold : Rat) :
    List WeakTopic :=
  (tp.filter (fun p => p.2.percentage < threshold)).map mkWeakTopic

/-- Stable insertion used to embed Python `list.sort(key=percentage)`:
the new element goes after every already-placed element with a key less
than or equal to its own. -/
def insertByPct (x : WeakTopic) : List WeakTopic → List WeakTopic
  | [] => [x]
  | y :: ys =>
    if y.percentage ≤ x.percentage then y :: insertByPct x ys
    else x :: y :: ys

/-- Stable ascending sort by percentage: elements are inserted in input
order, so equal keys keep their original relative order, exactly as
Python Timsort guarantees. -/
def sortByPct (l : List WeakTopic) : List WeakTopic :=
  l.foldl (fun acc x => insertByPct x acc) []

/-- Embedding of `get_weak_topics` (`quiz.py` lines 273-298). -/
def get_weak_topics (topic_performance : List (String × TopicStat))
    (threshold : Rat) : List WeakTopic :=
  sortByPct (weakEntries topic_performance threshold)

/-! ## `storage.py`: session cache

The filesystem is an explicit association list from path to the JSON
value the file holds; `json.dump` followed by `json.load` on a
serializable Python value is the identity on its JSON image, so the
store holds `Json` values directly. -/

/-- Overwrite-or-create a file in the store. -/
def storeWrite (store : List (String × Json)) (path : String) (v : Json) :
    List (String × Json) :=
  if store.any (fun p => p.1 == path) then
    store.map (fun p => if p.1 == path then (p.1, v) else p)
  else store ++ [(path, v)]

/-- The cache file path `os.path.join(storage_dir, f"{video_id}.json")`. -/
def sessionPath (storage_dir video_id : String) : String :=
  storage_dir ++ "/" ++ video_id ++ ".json"

/-- Embedding of `SessionStorage.save_session` (`storage.py` lines
18-32): build the session dictionary and write it to the per-video
file, returning the new store and the file path. -/
def save_session (storage_dir : String) (store : List (String × Json))
    (video_id timestamp : String) (transcript notes questions : Json) :
    List (String × Json) × String :=
  let session_data := Json.obj
    [("video_id", Json.str video_id),
     ("timestamp", Json.str timestamp),
     ("transcript", transcript),
     ("notes", notes),
     ("questions", questions)]
  let filepath := sessionPath storage_dir video_id
  (storeWrite store filepath session_data, filepath)

/-- Embedding of `SessionStorage.load_session` (`storage.py` lines
34-41): return the parsed file content when the file exists, else
`None`. -/
def load_session (storage_dir : String) (store : List (String × Json))
    (video_id : String) : Option Json :=
  (store.find? (fun p => p.1 == sessionPath storage_dir video_id)).map
    (fun p => p.2)

/-- Key lookup in a JSON object, as in the Python record subscripts. -/
def Json.getKey : Json → String → Option Json
  | Json.obj kvs, k => (kvs.find? (fun p => p.1 == k)).map (fun p => p.2)
  | _, _ => none

/-! ## Concrete instances used by witnesses and counterexamples,
and the lookup observer for topic maps -/

/-- First-match association lookup, the observer for topic maps
(Python `dict[key]`). -/
def lookupTopic {α : Type} (t : String) : List (String × α) → Option α
  | [] => none
  | p :: l => if p.1 == t then some p.2 else lookupTopic t l

/-- Number of graded answers on topic `t`. -/
def topicTotal (t : String) (l : List QuizResult) : Nat :=
  l.countP (fun r => r.question.topic == t)

/-- Number of correct graded answers on topic `t`. -/
def topicCorrect (t : String) (l : List QuizResult) : Nat :=
  l.countP (fun r => r.question.topic == t && r.is_correct)

/-- A parsed question with three options and an out-of-range correct
index: it violates the Question invariant. -/
def badQuestion : Question :=
  { question := "q", options := ["A", "B", "C"], correct_answer := 5,
    explanation := "e", topic := "T", difficulty := "easy" }

/-- A tier oracle whose easy tier parses to the single invalid
question and whose other tiers fail. -/
def badOracle : String → Nat → Option (List Question) :=
  fun d _ => if d == "easy" then some [badQuestion] else none

/-- An oracle whose first two calls raise errors classified as neither
transient nor not-found, and whose third call succeeds. -/
def otherTwiceOracle : Nat → CallOutcome :=
  fun n => if n < 2 then CallOutcome.errOther else CallOutcome.success

/-- A parser oracle for the concrete counterexample: the response text
parses to the empty JSON object (valid JSON, no fields). -/
def parseCE : String → Option Json :=
  fun s => if s == "E" then some (Json.obj []) else none

/-- A transcript of exactly 100 characters. -/
def longTranscript : String := String.mk (List.replicate 100 'a')

/-- A correct answer on a question of topic `A`, for the witness. -/
def rA : QuizResult :=
  { question :=
      { question := "q", options := ["A", "B", "C", "D"], correct_answer := 0,
        explanation := "e", topic := "A", difficulty := "easy" },
    user_answer := 0, is_correct := true }

/-- The expected stat record for the single-answer witness input. -/
def statA : TopicStat :=
  { correct := 1, total := 1, percentage := 100, status := "Strong" }

/-- A wrong answer on a question of topic `B`, for the witness. -/
def rB : QuizResult :=
  { question :=
      { question := "q", options := ["A", "B", "C", "D"], correct_answer := 0,
        explanation := "e", topic := "B", difficulty := "easy" },
    user_answer := 1, is_correct := false }

/-! ## Lemmas about sampling without replacement -/

/-- `extractAt` succeeds exactly on in-range indices. -/
theorem extractAt_lt {α : Type} :
    ∀ (l : List α) (i : Nat), i < l.length →
      ∃ x rest, extractAt l i = some (x, rest) := by
  intro l
  induction l with
  | nil => intro i h; simp at h
  | cons a l ih =>
    intro i h
    cases i with
    | zero => exact ⟨a, l, rfl⟩
    | succ n =>
      obtain ⟨x, rest, hx⟩ := ih n (by simpa using h)
      exact ⟨x, a :: rest, by simp [extractAt, hx]⟩

/-- A successful extraction splits the list into the drawn element and a
remainder that together permute the original list. -/
theorem extractAt_perm {α : Type} :
    ∀ (l : List α) (i : Nat) (x : α) (rest : List α),
      extractAt l i = some (x, rest) → (x :: rest).Perm l := by
  intro l
  induction l with
  | nil => intro i x rest h; simp [extractAt] at h
  | cons a l ih =>
    intro i x rest h
    cases i with
    | zero =>
      simp only [extractAt, Option.some.injEq, Prod.mk.injEq] at h
      rw [h.1, h.2]
    | succ n =>
      simp only [extractAt] at h
      cases he : extractAt l n with
      | none => rw [he] at h; simp at h
      | some p =>
        rw [he] at h
        simp only [Option.some.injEq, Prod.mk.injEq] at h
        obtain ⟨hx, hr⟩ := h
        subst hx
        subst hr
        exact (List.Perm.swap a p.1 p.2).trans
          ((ih n p.1 p.2 (by rw [he])).cons a)

/-- Each draw of `sampleAux` produces `min k pop.length` elements drawn
without replacement: the sample followed by some leftover list permutes
the population. -/
theorem sampleAux_len_perm {α : Type} (rng : Nat → Nat) :
    ∀ (k step : Nat) (pop : List α),
      (sampleAux rng step k pop).length = min k pop.length ∧
      ∃ rest, ((sampleAux rng step k pop) ++ rest).Perm pop := by
  intro k
  induction k with
  | zero =>
    intro step pop
    exact ⟨by simp [sampleAux], ⟨pop, by simp [sampleAux]⟩⟩
  | succ k ih =>
    intro step pop
    by_cases hpop : pop = []
    · subst hpop
      exact ⟨by simp [sampleAux, extractAt], ⟨[], by simp [sampleAux, extractAt]⟩⟩
    · have hlen : 0 < pop.length := List.length_pos.mpr hpop
      have hidx : rng step % pop.length < pop.length := Nat.mod_lt _ hlen
      obtain ⟨x, rest, hex⟩ := extractAt_lt pop _ hidx
      have hperm : (x :: rest).Perm pop := extractAt_perm pop _ x rest hex
      have hrl : rest.length + 1 = pop.length := by
        have h := hperm.length_eq
        simpa using h
      obtain ⟨hlen', r1, hr1⟩ := ih (step + 1) rest
      constructor
      · simp only [sampleAux, hex, List.length_cons, hlen']
        omega
      · refine ⟨r1, ?_⟩
        have h1 : ((x :: sampleAux rng (step + 1) k rest) ++ r1).Perm
            (x :: rest) := by
          simpa using hr1.cons x
        simpa [sampleAux, hex] using h1.trans hperm

/-- `random.shuffle` returns a permutation of its input. -/
theorem pyShuffle_perm {α : Type} (rng : Nat → Nat) (l : List α) :
    (pyShuffle rng l).Perm l := by
  obtain ⟨hlen, r, hr⟩ := sampleAux_len_perm rng l.length 0 l
  have hlr : r.length = 0 := by
    have h := hr.length_eq
    simp only [List.length_append, hlen, Nat.min_self] at h
    omega
  have hre : r = [] := List.eq_nil_of_length_eq_zero hlr
  subst hre
  simpa [pyShuffle, randomSample] using hr

/-- C4: the default split assigns `total // 3` to the easy and medium
tiers and the remainder `total − 2 * (total // 3)` to the hard tier,
and the three counts sum exactly to the requested total whenever it is
at least 3. -/
theorem default_difficulty_split (n : Nat) (_h : 3 ≤ n) :
    defaultDifficultyMix n =
      [("easy", n / 3), ("medium", n / 3), ("hard", n - 2 * (n / 3))] ∧
    ((defaultDifficultyMix n).map (fun p => p.2)).sum = n := by
  refine ⟨rfl, ?_⟩
  simp only [defaultDifficultyMix, List.map_cons, List.map_nil,
    List.sum_cons, List.sum_nil]
  omega

/-- Witness for C4 at a total of 7. -/
theorem default_difficulty_split_witness :
    (3 ≤ 7) ∧ ((defaultDifficultyMix 7).map (fun p => p.2)).sum = 7 :=
  ⟨by decide, (default_difficulty_split 7 (by decide)).2⟩


/-- The universe the code samples from coincides with the universe the
spec describes: the topic-matching subset when the filter is non-empty
and matches at least one pool question, and the whole pool otherwise. -/
theorem pythonAvailable_eq_claimUniverse (pool : List Question)
    (topics : Option (List String)) :
    pythonAvailable pool topics = claimUniverse pool topics := by
  cases topics with
  | none => rfl
  | some ts =>
    by_cases h1 : ts.isEmpty
    · have hts : ts = [] := by simpa [List.isEmpty_iff] using h1
      subst hts
      simp [pythonAvailable, claimUniverse]
    · have hne : ts ≠ [] := by simpa [List.isEmpty_iff] using h1
      by_cases hany : pool.any (fun q => ts.contains q.topic) = true
      · have hfne : ¬ (pool.filter (fun q => ts.contains q.topic)).isEmpty = true := by
          obtain ⟨q, hq, hc⟩ := List.any_eq_true.mp hany
          have hmem : q ∈ pool.filter (fun q => ts.contains q.topic) :=
            List.mem_filter.mpr ⟨hq, hc⟩
          intro hemp
          rw [List.isEmpty_iff.mp hemp] at hmem
          simp at hmem
        simp only [pythonAvailable, claimUniverse]
        rw [if_neg h1, if_neg hfne, if_pos ⟨hne, hany⟩]
      · have hfe : (pool.filter (fun q => ts.contains q.topic)).isEmpty = true := by
          rw [List.isEmpty_iff, List.filter_eq_nil_iff]
          intro a ha hc
          exact hany (List.any_eq_true.mpr ⟨a, ha, hc⟩)
        simp only [pythonAvailable, claimUniverse]
        rw [if_neg h1, if_pos hfe, if_neg (fun hcond => hany hcond.2)]

/-- C5: `select_quiz_questions` is total (the embedding never hits the
`random.sample` failure case), returns exactly `min count |universe|`
elements, and draws them without replacement from the universe the spec
describes: the selection extends to a permutation of that universe. -/
theorem select_quiz_questions_spec (rng : Nat → Nat) (pool : List Question)
    (count : Nat) (topics : Option (List String)) :
    (select_quiz_questions rng pool count topics).length =
        min count (claimUniverse pool topics).length ∧
    ∃ rest, ((select_quiz_questions rng pool count topics) ++ rest).Perm
        (claimUniverse pool topics) := by
  have he := pythonAvailable_eq_claimUniverse pool topics
  have hsel : select_quiz_questions rng pool count topics =
      randomSample rng (claimUniverse pool topics)
        (min count (claimUniverse pool topics).length) := by
    simp only [select_quiz_questions, he]
  obtain ⟨hlen, rest, hperm⟩ := sampleAux_len_perm rng
    (min count (claimUniverse pool topics).length) 0 (claimUniverse pool topics)
  refine ⟨?_, rest, ?_⟩
  · rw [hsel, randomSample, hlen, Nat.min_assoc, Nat.min_self]
  · rw [hsel, randomSample]
    exact hperm

/-- C6: under the Question invariant, grading is total — the unguarded
`options[correct_answer]` lookup cannot raise — and the verdict is the
pure record built from the question: the `correct` flag is the exact
integer comparison, `correct_option` is the text at the correct index,
and `user_option` is the option text at `user_answer` when that index
is in range and `None` otherwise.  The second conjunct makes the
correctness criterion explicit: the flag is true iff `user_answer`
equals `correct_answer` exactly.  The question itself is untouched:
the embedding is a pure function of `(q, user_answer)`. -/
theorem check_answer_spec (q : Question) (ua : Int) (h : questionInvariant q) :
    check_answer q ua =
      some { correct := ua == q.correct_answer,
             correct_answer := q.correct_answer,
             correct_option := q.options.getD q.correct_answer.toNat "",
             user_option :=
               if 0 ≤ ua ∧ ua < (q.options.length : Int) then
                 some (q.options.getD ua.toNat "")
               else none,
             explanation := q.explanation } ∧
    ((ua == q.correct_answer) = true ↔ ua = q.correct_answer) := by
  obtain ⟨_h4, h0, hlt⟩ := h
  have hnat : q.correct_answer.toNat < q.options.length := by omega
  have hget : pyGet q.options q.correct_answer =
      some (q.options.getD q.correct_answer.toNat "") := by
    rw [pyGet, if_pos h0, if_pos hlt, List.get?_eq_getElem?,
      List.getElem?_eq_getElem hnat, List.getD_eq_getElem _ _ hnat]
  refine ⟨?_, by simp⟩
  rw [check_answer, hget]
  by_cases hin : 0 ≤ ua ∧ ua < (q.options.length : Int)
  · have hnat2 : ua.toNat < q.options.length := by omega
    have hget2 : pyGet q.options ua = some (q.options.getD ua.toNat "") := by
      rw [pyGet, if_pos hin.1, if_pos hin.2, List.get?_eq_getElem?,
        List.getElem?_eq_getElem hnat2, List.getD_eq_getElem _ _ hnat2]
    rw [if_pos hin, if_pos hin, hget2]
  · rw [if_neg hin, if_neg hin]

/-- Witness for C6: a well-formed question graded at the out-of-range
answer 9 returns a verdict with no user option rather than raising. -/
theorem check_answer_spec_witness :
    check_answer
        { question := "q", options := ["A", "B", "C", "D"],
          correct_answer := 2, explanation := "e", topic := "T",
          difficulty := "easy" } 9 =
      some { correct := false, correct_answer := 2, correct_option := "C",
             user_option := none, explanation := "e" } := by
  have h := (check_answer_spec
    { question := "q", options := ["A", "B", "C", "D"], correct_answer := 2,
      explanation := "e", topic := "T", difficulty := "easy" } 9
    (by decide)).1
  rw [h]
  rfl

/-! ## Lemmas for the session cache -/

/-- After overwriting a key with `storeWrite` inside the map branch, a
lookup of that key finds the new value. -/
theorem find?_map_update (store : List (String × Json)) (path : String)
    (v : Json)
    (hany : store.any (fun p => p.1 == path) = true) :
    (store.map (fun p => if p.1 == path then (p.1, v) else p)).find?
      (fun p => p.1 == path) = some (path, v) := by
  induction store with
  | nil => simp at hany
  | cons p s ih =>
    by_cases hp : (p.1 == path) = true
    · have hp' : p.1 = path := by simpa using hp
      simp [hp, hp']
    · have hs : s.any (fun p => p.1 == path) = true := by
        rcases List.any_eq_true.mp hany with ⟨x, hx, hxp⟩
        rcases List.mem_cons.mp hx with rfl | hx'
        · exact absurd hxp hp
        · exact List.any_eq_true.mpr ⟨x, hx', hxp⟩
      have hpf : (p.1 == path) = false := by simpa using hp
      have hfp : (if p.1 == path then (p.1, v) else p) = p := by
        rw [hpf]
        simp
      rw [List.map_cons, hfp]
      rw [@List.find?_cons_of_neg _ (fun x => x.1 == path) p _ hp]
      exact ih hs

/-- A `storeWrite` is always found again by a lookup of its key. -/
theorem find?_storeWrite (store : List (String × Json)) (path : String)
    (v : Json) :
    (storeWrite store path v).find? (fun p => p.1 == path) = some (path, v) := by
  rw [storeWrite]
  by_cases hany : store.any (fun p => p.1 == path) = true
  · rw [if_pos hany]
    exact find?_map_update store path v hany
  · rw [if_neg hany, List.find?_append]
    have hnone : store.find? (fun p => p.1 == path) = none :=
      List.find?_eq_none.mpr
        (fun x hx hpx => hany (List.any_eq_true.mpr ⟨x, hx, hpx⟩))
    simp [hnone]

/-- C9: cache round-trip.  Saving a session and loading the same video
id returns the stored record, whose `transcript`, `notes` and
`questions` entries are structurally equal to the saved values, for
every prior store content. -/
theorem save_load_roundtrip (storage_dir : String)
    (store : List (String × Json)) (video_id timestamp : String)
    (T N Q : Json) :
    ∃ j, load_session storage_dir
          (save_session storage_dir store video_id timestamp T N Q).1
          video_id = some j ∧
      j.getKey "transcript" = some T ∧
      j.getKey "notes" = some N ∧
      j.getKey "questions" = some Q := by
  refine ⟨Json.obj
    [("video_id", Json.str video_id), ("timestamp", Json.str timestamp),
     ("transcript", T), ("notes", N), ("questions", Q)], ?_, rfl, rfl, rfl⟩
  simp only [load_session, save_session]
  rw [find?_storeWrite]
  rfl

/-! ## Lemmas for the question bank builder -/

/-- When every tier call fails, the tier fold leaves its accumulator
unchanged. -/
theorem foldl_tiers_nil (oracle : String → Nat → Option (List Question))
    (h : ∀ d c, oracle d c = none) :
    ∀ (mix : List (String × Nat)) (acc : List Question),
      mix.foldl
        (fun acc dc =>
          if dc.2 > 0 then
            acc ++ generate_questions_by_difficulty oracle dc.1 dc.2
          else acc) acc = acc := by
  intro mix
  induction mix with
  | nil => intro acc; rfl
  | cons dc0 mix ih =>
    intro acc
    rw [List.foldl_cons]
    have hstep :
        (if dc0.2 > 0 then
            acc ++ generate_questions_by_difficulty oracle dc0.1 dc0.2
          else acc) = acc := by
      rw [generate_questions_by_difficulty, h dc0.1 dc0.2]
      split <;> simp
    rw [hstep]
    exact ih acc

/-- C10: `generate_questions` reports success unconditionally — a tier
whose generation or parse raises is caught inside the tier helper and
contributes an empty list — and when every tier fails the result is
`success = True` with an empty pool and `total_generated = 0`: an empty
pool is reported as success, not as an error. -/
theorem generate_questions_swallows_failures (rng : Nat → Nat)
    (oracle : String → Nat → Option (List Question)) (num_questions : Nat)
    (difficulty_mix : Option (List (String × Nat))) :
    (generate_questions rng oracle num_questions difficulty_mix).success = true ∧
    ((∀ d c, oracle d c = none) →
      generate_questions rng oracle num_questions difficulty_mix =
        { success := true, questions := [], total_generated := 0,
          error := none }) := by
  constructor
  · rfl
  · intro h
    simp only [generate_questions]
    rw [foldl_tiers_nil oracle h]
    rfl

/-- Witness for C10: with every tier failing, the default 50-question
request returns success with no questions. -/
theorem generate_questions_swallows_failures_witness :
    generate_questions (fun _ => 0) (fun _ _ => none) 50 none =
      { success := true, questions := [], total_generated := 0,
        error := none } :=
  (generate_questions_swallows_failures (fun _ => 0) (fun _ _ => none)
    50 none).2 (fun _ _ => rfl)

/-- C1 counterexample: an invariant-violating question parsed from a
tier response ends up in the pool returned by `generate_questions` —
no per-question invariant check happens during bank assembly. -/
theorem question_invariant_not_enforced :
    badQuestion ∈ (generate_questions (fun _ => 0) badOracle 3 none).questions ∧
    ¬ questionInvariant badQuestion := by decide

/-- Every question of a successfully parsed tier reaches the fold
result. -/
theorem mem_foldl_tiers (oracle : String → Nat → Option (List Question))
    (q : Question) :
    ∀ (mix : List (String × Nat)) (acc : List Question),
      (q ∈ acc ∨ ∃ dc ∈ mix, dc.2 > 0 ∧
          q ∈ generate_questions_by_difficulty oracle dc.1 dc.2) →
      q ∈ mix.foldl
        (fun acc dc =>
          if dc.2 > 0 then
            acc ++ generate_questions_by_difficulty oracle dc.1 dc.2
          else acc) acc := by
  intro mix
  induction mix with
  | nil =>
    intro acc h
    rcases h with h | ⟨dc, hdc, _⟩
    · simpa using h
    · simp at hdc
  | cons dc0 mix ih =>
    intro acc h
    rw [List.foldl_cons]
    apply ih
    rcases h with h | ⟨dc, hdc, hpos, hq⟩
    · left
      split
      · exact List.mem_append_left _ h
      · exact h
    · rcases List.mem_cons.mp hdc with rfl | hdc'
      · left
        rw [if_pos hpos]
        exact List.mem_append_right _ hq
      · right
        exact ⟨dc, hdc', hpos, hq⟩

/-- C1 amended: the pool contains every question of every positive-count
parsed response of every tier, with no invariant requirement on the question:
parsed questions enter the pool unfiltered (and a tier whose call or
parse raises contributes nothing, per the C10 theorem). -/
theorem generate_questions_no_invariant_filter (rng : Nat → Nat)
    (oracle : String → Nat → Option (List Question)) (num_questions : Nat)
    (difficulty_mix : Option (List (String × Nat)))
    (d : String) (c : Nat) (qs : List Question) (q : Question)
    (hmix : (d, c) ∈ difficulty_mix.getD (defaultDifficultyMix num_questions))
    (hc : 0 < c) (hor : oracle d c = some qs) (hq : q ∈ qs) :
    q ∈ (generate_questions rng oracle num_questions difficulty_mix).questions := by
  have hmem : q ∈ (difficulty_mix.getD (defaultDifficultyMix num_questions)).foldl
      (fun acc dc =>
        if dc.2 > 0 then
          acc ++ generate_questions_by_difficulty oracle dc.1 dc.2
        else acc) [] := by
    apply mem_foldl_tiers
    right
    refine ⟨(d, c), hmix, hc, ?_⟩
    rw [generate_questions_by_difficulty, hor]
    exact hq
  have hperm := pyShuffle_perm rng
    ((difficulty_mix.getD (defaultDifficultyMix num_questions)).foldl
      (fun acc dc =>
        if dc.2 > 0 then
          acc ++ generate_questions_by_difficulty oracle dc.1 dc.2
        else acc) [])
  simp only [generate_questions]
  exact hperm.mem_iff.mpr hmem

/-- Witness for the amended C1 at the concrete invalid question. -/
theorem generate_questions_no_invariant_filter_witness :
    badQuestion ∈ (generate_questions (fun _ => 1) badOracle 3 none).questions :=
  generate_questions_no_invariant_filter (fun _ => 1) badOracle 3 none
    "easy" 1 [badQuestion] badQuestion (by decide) (by decide) rfl
    (List.mem_singleton.mpr rfl)

/-! ## The retry loop and non-transient errors -/

/-- C3 counterexample: after an other-classified error at attempt 0 is
retried and the error recurs at attempt 1, the code does not propagate
it — it sleeps another fixed 2 seconds, retries a third time, and
returns that success.  Propagation after a single retry would have
meant `raisedOther` at call 1 with only two calls made. -/
theorem retry_other_error_counterexample :
    call_llm_with_retry otherTwiceOracle 3 = (RetryResult.ok 2, 3, [2, 2]) ∧
    call_llm_with_retry otherTwiceOracle 3 ≠
      (RetryResult.raisedOther 1, 2, [2]) := by decide

/-- C3 amended: an other-classified error is retried after a fixed
2-second delay on every non-final attempt (up to `max_retries - 1 = 2`
retries), and one occurring on the final attempt of the model is re-raised
immediately to the caller without advancing to the next model: with
every call failing that way, the run makes exactly three calls, sleeps
2 seconds twice, and raises at call 2 — the second model is never
tried. -/
theorem retry_other_error_exhausts_attempts (oracle : Nat → CallOutcome)
    (h : ∀ k, oracle k = CallOutcome.errOther) :
    call_llm_with_retry oracle 3 = (RetryResult.raisedOther 2, 3, [2, 2]) := by
  have e : oracle = fun _ => CallOutcome.errOther := funext h
  subst e
  decide

/-- Witness for the amended C3. -/
theorem retry_other_error_exhausts_attempts_witness :
    call_llm_with_retry (fun _ => CallOutcome.errOther) 3 =
      (RetryResult.raisedOther 2, 3, [2, 2]) :=
  retry_other_error_exhausts_attempts (fun _ => CallOutcome.errOther)
    (fun _ => rfl)

/-! ## Notes generation: success shape and raw-text diagnosis -/

/-- C2 amended: for every transcript of at least 100 characters,
`generate_notes` returns either a success whose notes value passed the
four-required-fields check, or a failure whose `notes` key is absent —
never a partially-filled notes object.  The raw unparsed text is
attached exactly on the JSON-decode failure path; a response that
parses but is missing a required field produces a failure *without* the
raw text (the `ValueError` is caught by the generic handler, which does
not attach `raw_response`). -/
theorem generate_notes_spec (parse : String → Option Json)
    (oracle : Option (String × Usage)) (transcript : String)
    (h : 100 ≤ transcript.length) :
    ((generate_notes parse oracle transcript).success = false →
        (generate_notes parse oracle transcript).notes = none) ∧
    (∀ j, (generate_notes parse oracle transcript).notes = some j →
        (generate_notes parse oracle transcript).success = true ∧
        allRequired j = some true) ∧
    (∀ c u, oracle = some (c, u) → parse (stripFences c) = none →
        (generate_notes parse oracle transcript).raw_response =
          some (stripFences c)) ∧
    (∀ c u j, oracle = some (c, u) → parse (stripFences c) = some j →
        allRequired j = some false →
        (generate_notes parse oracle transcript).success = false ∧
        (generate_notes parse oracle transcript).raw_response = none) := by
  have hlen : ¬ transcript.length < 100 := by omega
  rcases oracle with _ | ⟨c0, u0⟩
  · refine ⟨?_, ?_, ?_, ?_⟩
    · intro _
      simp [generate_notes, hlen]
    · intro j hj
      exfalso
      revert hj
      simp [generate_notes, hlen]
    · intro c u hcu
      exact absurd hcu (by simp)
    · intro c u j hcu
      exact absurd hcu (by simp)
  · cases hp : parse (stripFences c0) with
    | none =>
      refine ⟨?_, ?_, ?_, ?_⟩
      · intro _
        simp [generate_notes, hlen, hp]
      · intro j hj
        exfalso
        revert hj
        simp [generate_notes, hlen, hp]
      · intro c u hcu hpc
        simp only [Option.some.injEq, Prod.mk.injEq] at hcu
        obtain ⟨rfl, rfl⟩ := hcu
        simp [generate_notes, hlen, hp]
      · intro c u j hcu hpc _hall
        simp only [Option.some.injEq, Prod.mk.injEq] at hcu
        obtain ⟨rfl, rfl⟩ := hcu
        rw [hp] at hpc
        exact absurd hpc (by simp)
    | some j0 =>
      rcases hall0 : allRequired j0 with _ | b
      · refine ⟨?_, ?_, ?_, ?_⟩
        · intro _
          simp [generate_notes, hlen, hp, hall0]
        · intro j hj
          exfalso
          revert hj
          simp [generate_notes, hlen, hp, hall0]
        · intro c u hcu hpc
          simp only [Option.some.injEq, Prod.mk.injEq] at hcu
          obtain ⟨rfl, rfl⟩ := hcu
          rw [hp] at hpc
          exact absurd hpc (by simp)
        · intro c u j hcu hpc hall
          simp only [Option.some.injEq, Prod.mk.injEq] at hcu
          obtain ⟨rfl, rfl⟩ := hcu
          rw [hp] at hpc
          simp only [Option.some.injEq] at hpc
          subst hpc
          rw [hall0] at hall
          exact absurd hall (by simp)
      · cases b
        · refine ⟨?_, ?_, ?_, ?_⟩
          · intro _
            simp [generate_notes, hlen, hp, hall0]
          · intro j hj
            exfalso
            revert hj
            simp [generate_notes, hlen, hp, hall0]
          · intro c u hcu hpc
            simp only [Option.some.injEq, Prod.mk.injEq] at hcu
            obtain ⟨rfl, rfl⟩ := hcu
            rw [hp] at hpc
            exact absurd hpc (by simp)
          · intro c u j hcu hpc _hall
            simp only [Option.some.injEq, Prod.mk.injEq] at hcu
            obtain ⟨rfl, rfl⟩ := hcu
            simp [generate_notes, hlen, hp, hall0]
        · refine ⟨?_, ?_, ?_, ?_⟩
          · intro hs
            exfalso
            revert hs
            simp [generate_notes, hlen, hp, hall0]
          · intro j hj
            have hj0 : j = j0 := by
              revert hj
              simp [generate_notes, hlen, hp, hall0]
              intro h'
              exact h'.symm
            subst hj0
            exact ⟨by simp [generate_notes, hlen, hp, hall0], hall0⟩
          · intro c u hcu hpc
            simp only [Option.some.injEq, Prod.mk.injEq] at hcu
            obtain ⟨rfl, rfl⟩ := hcu
            rw [hp] at hpc
            exact absurd hpc (by simp)
          · intro c u j hcu hpc hall
            simp only [Option.some.injEq, Prod.mk.injEq] at hcu
            obtain ⟨rfl, rfl⟩ := hcu
            rw [hp] at hpc
            simp only [Option.some.injEq] at hpc
            subst hpc
            rw [hall0] at hall
            exact absurd hall (by simp)

/-- C2 counterexample: a 100-character transcript whose response parses
as valid JSON but is missing every required field yields a failure
whose error names the missing fields but whose `raw_response` key is
absent — the raw text is not surfaced on the missing-field path. -/
theorem notes_missing_fields_drop_raw :
    100 ≤ longTranscript.length ∧
    (generate_notes parseCE (some ("E", ⟨0, 0, 0⟩)) longTranscript).success
        = false ∧
    (generate_notes parseCE (some ("E", ⟨0, 0, 0⟩)) longTranscript).error =
      some "Error generating notes: LLM response missing required fields" ∧
    (generate_notes parseCE (some ("E", ⟨0, 0, 0⟩)) longTranscript).raw_response
        = none := by
  refine ⟨by decide, ?_, ?_, ?_⟩ <;> rfl

/-- Witness for the amended C2, instantiating the missing-field branch
at the concrete counterexample data. -/
theorem generate_notes_spec_witness :
    (generate_notes parseCE (some ("E", ⟨0, 0, 0⟩)) longTranscript).success
        = false ∧
    (generate_notes parseCE (some ("E", ⟨0, 0, 0⟩)) longTranscript).raw_response
        = none :=
  (generate_notes_spec parseCE (some ("E", ⟨0, 0, 0⟩)) longTranscript
      (by decide)).2.2.2 "E" ⟨0, 0, 0⟩ (Json.obj []) rfl (by rfl) (by rfl)

/-! ## Lemmas about the stable percentage sort -/

/-- Inserting into the sorted accumulator produces a permutation of the
element added in front. -/
theorem insertByPct_perm (x : WeakTopic) :
    ∀ (l : List WeakTopic), (insertByPct x l).Perm (x :: l) := by
  intro l
  induction l with
  | nil => simp [insertByPct]
  | cons y ys ih =>
    rw [insertByPct]
    by_cases h : y.percentage ≤ x.percentage
    · rw [if_pos h]
      exact (ih.cons y).trans (List.Perm.swap x y ys)
    · rw [if_neg h]

/-- The fold of stable insertions permutes the accumulator followed by
the input. -/
theorem sortByPct_perm_aux :
    ∀ (l acc : List WeakTopic),
      (l.foldl (fun a x => insertByPct x a) acc).Perm (acc ++ l) := by
  intro l
  induction l with
  | nil => intro acc; simp
  | cons x l ih =>
    intro acc
    rw [List.foldl_cons]
    refine (ih (insertByPct x acc)).trans ?_
    refine (List.Perm.append_right l (insertByPct_perm x acc)).trans ?_
    exact List.perm_middle.symm

/-- The sort returns a permutation of its input. -/
theorem sortByPct_perm (l : List WeakTopic) : (sortByPct l).Perm l := by
  simpa using sortByPct_perm_aux l []

/-- Stable insertion preserves sortedness by percentage. -/
theorem insertByPct_sorted (x : WeakTopic) :
    ∀ {l : List WeakTopic},
      l.Pairwise (fun a b => a.percentage ≤ b.percentage) →
      (insertByPct x l).Pairwise (fun a b => a.percentage ≤ b.percentage) := by
  intro l
  induction l with
  | nil => intro _; simp [insertByPct]
  | cons y ys ih =>
    intro hs
    rcases List.pairwise_cons.mp hs with ⟨hy, hys⟩
    rw [insertByPct]
    by_cases h : y.percentage ≤ x.percentage
    · rw [if_pos h]
      refine List.pairwise_cons.mpr ⟨?_, ih hys⟩
      intro z hz
      rcases List.mem_cons.mp ((insertByPct_perm x ys).mem_iff.mp hz) with
        rfl | hzys
      · exact h
      · exact hy z hzys
    · rw [if_neg h]
      have hxy : x.percentage ≤ y.percentage := le_of_not_le h
      refine List.pairwise_cons.mpr ⟨?_, hs⟩
      intro z hz
      rcases List.mem_cons.mp hz with rfl | hzys
      · exact hxy
      · exact hxy.trans (hy z hzys)

/-- The sort output is sorted ascending by percentage. -/
theorem sortByPct_sorted_aux :
    ∀ (l acc : List WeakTopic),
      acc.Pairwise (fun a b => a.percentage ≤ b.percentage) →
      (l.foldl (fun a x => insertByPct x a) acc).Pairwise
        (fun a b => a.percentage ≤ b.percentage) := by
  intro l
  induction l with
  | nil => intro acc hacc; exact hacc
  | cons x l ih =>
    intro acc hacc
    rw [List.foldl_cons]
    exact ih _ (insertByPct_sorted x hacc)

/-- The sorted weak list is pairwise ascending. -/
theorem sortByPct_sorted (l : List WeakTopic) :
    (sortByPct l).Pairwise (fun a b => a.percentage ≤ b.percentage) :=
  sortByPct_sorted_aux l [] (by simp)

/-- Stability of insertion into a sorted list: the subsequence of any
fixed percentage value gains the new element at its end when the value
matches, and is untouched otherwise. -/
theorem filter_insertByPct (x : WeakTopic) (v : Rat) :
    ∀ {l : List WeakTopic},
      l.Pairwise (fun a b => a.percentage ≤ b.percentage) →
      (insertByPct x l).filter (fun w => w.percentage == v) =
        if x.percentage == v then
          (l.filter (fun w => w.percentage == v)) ++ [x]
        else l.filter (fun w => w.percentage == v) := by
  intro l
  induction l with
  | nil =>
    intro _
    by_cases hx : (x.percentage == v) = true
    · simp [insertByPct, hx]
    · simp [insertByPct, hx]
  | cons y ys ih =>
    intro hs
    rcases List.pairwise_cons.mp hs with ⟨hy, hys⟩
    rw [insertByPct]
    by_cases h : y.percentage ≤ x.percentage
    · rw [if_pos h]
      simp only [List.filter_cons, ih hys]
      by_cases hx : (x.percentage == v) = true
      · by_cases hyv : (y.percentage == v) = true
        · simp [hx, hyv]
        · simp [hx, hyv]
      · by_cases hyv : (y.percentage == v) = true
        · simp [hx, hyv]
        · simp [hx, hyv]
    · rw [if_neg h]
      have hxy : x.percentage < y.percentage := lt_of_not_le h
      by_cases hx : (x.percentage == v) = true
      · have hxv : x.percentage = v := by simpa using hx
        have hnil : (y :: ys).filter (fun w => w.percentage == v) = [] := by
          rw [List.filter_eq_nil_iff]
          intro a ha
          rcases List.mem_cons.mp ha with rfl | hays
          · intro hav
            have h1 : a.percentage = v := by simpa using hav
            rw [hxv, h1] at hxy
            exact lt_irrefl v hxy
          · intro hav
            have h1 : a.percentage = v := by simpa using hav
            have h2 : y.percentage ≤ a.percentage := hy a hays
            rw [hxv] at hxy
            rw [h1] at h2
            exact lt_irrefl v (lt_of_lt_of_le hxy h2)
        rw [List.filter_cons]
        simp [hx, hnil]
      · rw [List.filter_cons]
        simp [hx]

/-- Stability of the whole sort, fold form. -/
theorem filter_sortByPct_aux (v : Rat) :
    ∀ (l acc : List WeakTopic),
      acc.Pairwise (fun a b => a.percentage ≤ b.percentage) →
      (l.foldl (fun a x => insertByPct x a) acc).filter
          (fun w => w.percentage == v) =
        acc.filter (fun w => w.percentage == v) ++
          l.filter (fun w => w.percentage == v) := by
  intro l
  induction l with
  | nil => intro acc _; simp
  | cons x l ih =>
    intro acc hacc
    rw [List.foldl_cons, ih _ (insertByPct_sorted x hacc),
      filter_insertByPct x v hacc, List.filter_cons]
    by_cases hx : (x.percentage == v) = true
    · simp [hx]
    · simp [hx]

/-- Stability of the sort: elements of any fixed percentage keep their
input order. -/
theorem filter_sortByPct (l : List WeakTopic) (v : Rat) :
    (sortByPct l).filter (fun w => w.percentage == v) =
      l.filter (fun w => w.percentage == v) := by
  simpa using filter_sortByPct_aux v l [] (by simp)

/-- The percentage field of a stat record is the correct/total ratio
times 100 (also when the total is zero, where both sides are 0). -/
theorem mkStat_percentage (c : Nat × Nat) :
    (mkStat c).percentage =
      ((mkStat c).correct : Rat) / ((mkStat c).total : Rat) * 100 := by
  rcases c with ⟨a, b⟩
  by_cases hb : b > 0
  · simp [mkStat, hb]
  · have hb0 : b = 0 := by omega
    subst hb0
    simp [mkStat]

/-- Status label above the strong threshold. -/
theorem statusOf_strong {p : Rat} (h : 80 ≤ p) : statusOf p = "Strong" := by
  rw [statusOf, if_pos h]

/-- Status label in the review band. -/
theorem statusOf_review {p : Rat} (h60 : 60 ≤ p) (h80 : p < 80) :
    statusOf p = "Needs Review" := by
  rw [statusOf, if_neg (not_le.mpr h80), if_pos h60]

/-- Status label below the weak threshold. -/
theorem statusOf_weak {p : Rat} (h : p < 60) : statusOf p = "Weak" := by
  have h80 : p < 80 := lt_trans h (by norm_num)
  rw [statusOf, if_neg (not_le.mpr h80), if_neg (not_le.mpr h)]

/-- C7: every topic stat computed by `calculate_topic_performance`
satisfies `percentage = correct / total * 100` and carries the status
label dictated by the 80/60 thresholds; and `get_weak_topics` returns
exactly the below-threshold entries (a permutation of the filtered
topic list), sorted ascending by percentage, with entries of equal
percentage kept in the original topic-map iteration order (the filtered
subsequence of each percentage value is preserved verbatim). -/
theorem topic_performance_report (results : List QuizResult) (threshold : Rat) :
    (∀ p ∈ calculate_topic_performance results,
        p.2.percentage = (p.2.correct : Rat) / (p.2.total : Rat) * 100 ∧
        (80 ≤ p.2.percentage → p.2.status = "Strong") ∧
        (60 ≤ p.2.percentage → p.2.percentage < 80 →
            p.2.status = "Needs Review") ∧
        (p.2.percentage < 60 → p.2.status = "Weak")) ∧
    (get_weak_topics (calculate_topic_performance results) threshold).Pairwise
        (fun a b => a.percentage ≤ b.percentage) ∧
    (get_weak_topics (calculate_topic_performance results) threshold).Perm
        (weakEntries (calculate_topic_performance results) threshold) ∧
    (∀ v : Rat,
        (get_weak_topics (calculate_topic_performance results)
            threshold).filter (fun w => w.percentage == v) =
          (weakEntries (calculate_topic_performance results)
            threshold).filter (fun w => w.percentage == v)) := by
  refine ⟨?_, ?_, ?_, ?_⟩
  · intro p hp
    rw [calculate_topic_performance] at hp
    rcases List.mem_map.mp hp with ⟨q, _, rfl⟩
    have hst : (mkStat q.2).status = statusOf ((mkStat q.2).percentage) := rfl
    refine ⟨mkStat_percentage q.2, ?_, ?_, ?_⟩
    · intro h
      rw [hst]
      exact statusOf_strong h
    · intro h60 h80
      rw [hst]
      exact statusOf_review h60 h80
    · intro h
      rw [hst]
      exact statusOf_weak h
  · exact sortByPct_sorted _
  · exact sortByPct_perm _
  · intro v
    exact filter_sortByPct _ v

/-- Evaluation of the aggregator on the single-answer witness input. -/
theorem ctp_rA_eval :
    calculate_topic_performance [rA] = [("A", statA)] := by
  have h1 : ((1 : Nat) : Rat) / ((1 : Nat) : Rat) * 100 = 100 := by norm_num
  simp [calculate_topic_performance, tally, addResult, bump, mkStat, rA,
    statusOf, statA, h1]
  norm_num

/-- Witness for C7: the theorem applied to the single-answer run yields
the Strong label for the 100 percent topic. -/
theorem topic_performance_report_witness :
    ("A", statA) ∈ calculate_topic_performance [rA] ∧
    statA.status = "Strong" := by
  have hmem : ("A", statA) ∈ calculate_topic_performance [rA] := by
    rw [ctp_rA_eval]
    exact List.mem_singleton.mpr rfl
  refine ⟨hmem, ?_⟩
  exact ((topic_performance_report [rA] 60).1 _ hmem).2.1 (by norm_num [statA])

/-! ## Permutation invariance of the aggregation -/

/-- Lookup commutes with a value-only map. -/
theorem lookupTopic_map_val {α β : Type} (f : α → β) (t : String) :
    ∀ (l : List (String × α)),
      lookupTopic t (l.map (fun p => (p.1, f p.2))) = (lookupTopic t l).map f := by
  intro l
  induction l with
  | nil => simp [lookupTopic]
  | cons p l ih =>
    by_cases hpt : (p.1 == t) = true
    · simp [lookupTopic, hpt]
    · have h : (p.1 == t) = false := by simpa using hpt
      simp [lookupTopic, h, ih]

/-- Unfolding equation for lookup at a cons cell. -/
theorem lookupTopic_cons {α : Type} (t : String) (p : String × α)
    (l : List (String × α)) :
    lookupTopic t (p :: l) = if p.1 == t then some p.2 else lookupTopic t l :=
  rfl

/-- Lookup after the in-place counter update of `addResult`. -/
theorem lookupTopic_map_upd (topic : String) (b : Bool) (t : String) :
    ∀ (l : List (String × Nat × Nat)),
      lookupTopic t
          (l.map (fun p => if p.1 == topic then (p.1, bump p.2 b) else p)) =
        if t == topic then (lookupTopic t l).map (fun c => bump c b)
        else lookupTopic t l := by
  intro l
  induction l with
  | nil =>
    by_cases htt : (t == topic) = true
    · rw [List.map_nil, if_pos htt]
      rfl
    · rw [List.map_nil, if_neg htt]
  | cons p l ih =>
    rw [List.map_cons, lookupTopic_cons, lookupTopic_cons]
    by_cases hptop : (p.1 == topic) = true
    · rw [if_pos hptop]
      by_cases hpt : (p.1 == t) = true
      · have htt : (t == topic) = true := by
          have h1 : p.1 = topic := by simpa using hptop
          have h2 : p.1 = t := by simpa using hpt
          rw [beq_iff_eq, ← h1, ← h2]
        rw [if_pos htt]
        show (if p.1 == t then some (bump p.2 b) else _) = _
        rw [if_pos hpt, if_pos hpt]
        rfl
      · have hptf : (p.1 == t) = false := by simpa using hpt
        have htt : (t == topic) = false := by
          rw [beq_eq_false_iff_ne]
          intro h
          have h1 : p.1 = topic := by simpa using hptop
          have : p.1 = t := by rw [h1, h]
          rw [beq_eq_false_iff_ne] at hptf
          exact hptf this
        show (if p.1 == t then some (bump p.2 b) else _) = _
        rw [if_neg hpt, if_neg hpt, ih, if_neg (by simp [htt])]
    · rw [if_neg hptop]
      by_cases hpt : (p.1 == t) = true
      · have htt : (t == topic) = false := by
          rw [beq_eq_false_iff_ne]
          intro h
          have h2 : p.1 = t := by simpa using hpt
          have : (p.1 == topic) = true := by rw [beq_iff_eq, h2, h]
          exact hptop this
        rw [if_pos hpt, if_pos hpt, if_neg (by simp [htt])]
      · rw [if_neg hpt, if_neg hpt, ih]

/-- Lookup across an appended singleton. -/
theorem lookupTopic_append_single {α : Type} (t : String) (x : String × α) :
    ∀ (l : List (String × α)),
      lookupTopic t (l ++ [x]) =
        match lookupTopic t l with
        | some c => some c
        | none => if x.1 == t then some x.2 else none := by
  intro l
  induction l with
  | nil => rfl
  | cons p l ih =>
    rw [List.cons_append, lookupTopic_cons, lookupTopic_cons]
    by_cases hpt : (p.1 == t) = true
    · rw [if_pos hpt, if_pos hpt]
    · rw [if_neg hpt, if_neg hpt, ih]

/-- A key absent from the map (no entry passes the `any` test) looks up
to `none`. -/
theorem lookupTopic_none_of_not_any (topic : String) :
    ∀ (l : List (String × Nat × Nat)),
      ¬ l.any (fun p => p.1 == topic) = true →
      lookupTopic topic l = none := by
  intro l
  induction l with
  | nil => intro _; rfl
  | cons p l ih =>
    intro h
    have hpf : ¬ (p.1 == topic) = true := by
      intro hv
      exact h (by simp [hv])
    rw [lookupTopic_cons, if_neg hpf]
    exact ih (fun hl => h (by simp [hl]))

/-- A key present in the map looks up to a value. -/
theorem lookupTopic_isSome_of_any (topic : String) :
    ∀ (l : List (String × Nat × Nat)),
      l.any (fun p => p.1 == topic) = true →
      (lookupTopic topic l).isSome = true := by
  intro l
  induction l with
  | nil => intro h; simp at h
  | cons p l ih =>
    intro h
    rw [lookupTopic_cons]
    by_cases hp : (p.1 == topic) = true
    · rw [if_pos hp]
      rfl
    · have hl : l.any (fun p => p.1 == topic) = true := by
        rcases List.any_eq_true.mp h with ⟨x, hx, hxp⟩
        rcases List.mem_cons.mp hx with rfl | hx'
        · exact absurd hxp hp
        · exact List.any_eq_true.mpr ⟨x, hx', hxp⟩
      rw [if_neg hp]
      exact ih hl

/-- Lookup after one `addResult` step: the updated topic gets its
counters bumped (starting from `(0, 0)` when new), other topics are
untouched. -/
theorem lookupTopic_addResult (acc : List (String × Nat × Nat))
    (topic : String) (b : Bool) (t : String) :
    lookupTopic t (addResult acc topic b) =
      if t == topic then
        some (bump ((lookupTopic topic acc).getD (0, 0)) b)
      else lookupTopic t acc := by
  by_cases hany : acc.any (fun p => p.1 == topic) = true
  · simp only [addResult, hany, if_true]
    rw [lookupTopic_map_upd]
    by_cases htt : (t == topic) = true
    · have htt' : t = topic := by simpa using htt
      subst htt'
      obtain ⟨c, hc⟩ := Option.isSome_iff_exists.mp
        (lookupTopic_isSome_of_any t acc hany)
      rw [if_pos htt, if_pos htt, hc]
      rfl
    · rw [if_neg htt, if_neg htt]
  · have hnone : lookupTopic topic acc = none :=
      lookupTopic_none_of_not_any topic acc hany
    have hanyf : acc.any (fun p => p.1 == topic) = false :=
      Bool.eq_false_iff.mpr hany
    simp only [addResult, hanyf, Bool.false_eq_true, if_false, List.map_append]
    have hsingle : ([((topic : String), ((0 : Nat), (0 : Nat)))].map
        (fun p => if p.1 == topic then (p.1, bump p.2 b) else p)) =
        [(topic, bump (0, 0) b)] := by simp
    rw [hsingle, lookupTopic_append_single, lookupTopic_map_upd]
    by_cases htt : (t == topic) = true
    · have htt' : t = topic := by simpa using htt
      subst htt'
      rw [if_pos htt, if_pos htt, hnone]
      simp
    · rw [if_neg htt, if_neg htt]
      have htpf : ¬ ((topic, bump (0, 0) b).1 == t) = true := by
        intro h
        have h1 : topic = t := by simpa using h
        exact htt (by rw [beq_iff_eq]; exact h1.symm)
      cases hacc : lookupTopic t acc with
      | none => rw [if_neg htpf]
      | some c => rfl

/-- Folding graded answers over a map where the topic already has
counters `c` adds the counts of that topic from the list. -/
theorem lookupTopic_foldl_some (t : String) :
    ∀ (l : List QuizResult) (acc : List (String × Nat × Nat)) (c : Nat × Nat),
      lookupTopic t acc = some c →
      lookupTopic t
          (l.foldl (fun s r => addResult s r.question.topic r.is_correct) acc) =
        some (c.1 + topicCorrect t l, c.2 + topicTotal t l) := by
  intro l
  induction l with
  | nil =>
    intro acc c hc
    simpa [topicCorrect, topicTotal] using hc
  | cons r l ih =>
    intro acc c hc
    rw [List.foldl_cons]
    by_cases hrt : (t == r.question.topic) = true
    · have hrt' : t = r.question.topic := by simpa using hrt
      have hacc' : lookupTopic t (addResult acc r.question.topic r.is_correct)
          = some (bump c r.is_correct) := by
        rw [lookupTopic_addResult, if_pos hrt, ← hrt', hc]
        rfl
      rw [ih _ _ hacc']
      have hpred : (r.question.topic == t) = true := by
        rw [beq_iff_eq, ← hrt']
      cases hrc : r.is_correct <;>
        simp [bump, topicCorrect, topicTotal, List.countP_cons, hpred, hrc] <;>
        omega
    · have hacc' : lookupTopic t (addResult acc r.question.topic r.is_correct)
          = some c := by
        rw [lookupTopic_addResult, if_neg hrt, hc]
      rw [ih _ _ hacc']
      have hpred : (r.question.topic == t) = false := by
        rw [beq_eq_false_iff_ne]
        intro h
        exact hrt (by rw [beq_iff_eq, h])
      simp [topicCorrect, topicTotal, List.countP_cons, hpred]

/-- Folding graded answers over a map that does not yet know the topic
yields exactly the counts of that topic from the list, when present. -/
theorem lookupTopic_foldl_none (t : String) :
    ∀ (l : List QuizResult) (acc : List (String × Nat × Nat)),
      lookupTopic t acc = none →
      lookupTopic t
          (l.foldl (fun s r => addResult s r.question.topic r.is_correct) acc) =
        (if l.any (fun r => r.question.topic == t) then
          some (topicCorrect t l, topicTotal t l)
        else none) := by
  intro l
  induction l with
  | nil =>
    intro acc hc
    simpa using hc
  | cons r l ih =>
    intro acc hc
    rw [List.foldl_cons]
    by_cases hrt : (t == r.question.topic) = true
    · have hrt' : t = r.question.topic := by simpa using hrt
      have hacc' : lookupTopic t (addResult acc r.question.topic r.is_correct)
          = some (bump (0, 0) r.is_correct) := by
        rw [lookupTopic_addResult, if_pos hrt, ← hrt', hc]
        rfl
      rw [lookupTopic_foldl_some t l _ _ hacc']
      have hpred : (r.question.topic == t) = true := by
        rw [beq_iff_eq, ← hrt']
      rw [if_pos (by simp [hpred] :
        ((r :: l).any fun r => r.question.topic == t) = true)]
      cases hrc : r.is_correct <;>
        simp [bump, topicCorrect, topicTotal, List.countP_cons, hpred, hrc] <;>
        omega
    · have hacc' : lookupTopic t (addResult acc r.question.topic r.is_correct)
          = none := by
        rw [lookupTopic_addResult, if_neg hrt, hc]
      rw [ih _ hacc']
      have hpred : (r.question.topic == t) = false := by
        rw [beq_eq_false_iff_ne]
        intro h
        exact hrt (by rw [beq_iff_eq, h])
      simp [topicCorrect, topicTotal, List.countP_cons, List.any_cons, hpred]

/-- The counting pass is characterised pointwise by two `countP`
filters over the input sequence. -/
theorem lookupTopic_tally (t : String) (l : List QuizResult) :
    lookupTopic t (tally l) =
      if l.any (fun r => r.question.topic == t) then
        some (topicCorrect t l, topicTotal t l)
      else none :=
  lookupTopic_foldl_none t l [] rfl

/-- C8: aggregation is invariant under permutation of the graded-answer
sequence — for every topic, the stat record (correct, total,
percentage, status) looked up in the result of
`calculate_topic_performance` is the same for any reordering of the
input. -/
theorem calculate_topic_performance_perm_invariant
    (l₁ l₂ : List QuizResult) (hp : l₁.Perm l₂) (t : String) :
    lookupTopic t (calculate_topic_performance l₁) =
      lookupTopic t (calculate_topic_performance l₂) := by
  have hmap : ∀ l : List QuizResult,
      lookupTopic t (calculate_topic_performance l) =
        (lookupTopic t (tally l)).map mkStat := by
    intro l
    rw [calculate_topic_performance]
    exact lookupTopic_map_val mkStat t (tally l)
  rw [hmap, hmap, lookupTopic_tally, lookupTopic_tally]
  have hcor : topicCorrect t l₁ = topicCorrect t l₂ := hp.countP_eq _
  have htot : topicTotal t l₁ = topicTotal t l₂ := hp.countP_eq _
  have hany : (l₁.any fun r => r.question.topic == t) =
      (l₂.any fun r => r.question.topic == t) := by
    rw [Bool.eq_iff_iff, List.any_eq_true, List.any_eq_true]
    constructor
    · rintro ⟨x, hx, hpx⟩
      exact ⟨x, hp.mem_iff.mp hx, hpx⟩
    · rintro ⟨x, hx, hpx⟩
      exact ⟨x, hp.mem_iff.mpr hx, hpx⟩
  rw [hany, hcor, htot]

/-- Witness for C8: swapping a two-answer session leaves the stat
lookup of topic `A` unchanged. -/
theorem calculate_topic_performance_perm_invariant_witness :
    lookupTopic "A" (calculate_topic_performance [rA, rB]) =
      lookupTopic "A" (calculate_topic_performance [rB, rA]) :=
  calculate_topic_performance_perm_invariant [rA, rB] [rB, rA]
    (List.Perm.swap rB rA []) "A"
